import Mathlib

/-
Verification of the wasmws arrayReader (src/arrayreader_js.go).

The reader adapts a JavaScript ArrayBuffer promise to a sequential
blocking read interface.  We embed the Go code shallowly:

* a Go byte slice becomes `Slice`, a view (offset, length) into an
  explicit backing array, so that capacity, slicing and reuse of the
  backing storage are modelled exactly as in Go;
* a JavaScript promise handle is modelled by the outcome it eventually
  settles with (`PromiseOutcome`), since `Read` blocks until exactly one
  of the two callbacks fires;
* `js.CopyBytesToGo` is modelled as an infallible full overwrite of the
  destination slice region (`overwrite`);
* `Read` returns `Option ReadOutput`: `none` models the undefined
  behaviour of reading an instance that was never configured (calling
  `then` on the zero `js.Value` would trap), `some` carries the byte
  count, the status (`ok` = nil error, `eof` = io.EOF, `failure` = any
  other error), the bytes written into the destination, and the
  post-state.
-/

/-- A Go byte slice: a view into a backing array `arr` starting at
`off` with length `len`; its capacity is `arr.length - off`.  Bytes are
modelled as `Nat`. -/
structure Slice where
  arr : List Nat
  off : Nat
  len : Nat
deriving Repr, DecidableEq

/-- Capacity of a Go slice: from the start of the view to the end of the
backing array. -/
def Slice.cap (s : Slice) : Nat := s.arr.length - s.off

/-- The byte content of the slice view. -/
def Slice.bytes (s : Slice) : List Nat := (s.arr.drop s.off).take s.len

/-- Well-formedness of a slice: the view lies inside the backing array. -/
def Slice.wf (s : Slice) : Prop := s.off + s.len ≤ s.arr.length

instance (s : Slice) : Decidable s.wf := by
  unfold Slice.wf
  infer_instance

/-- Reslicing from the front, Go `s[n:]`: advances the offset; capacity
shrinks accordingly. -/
def Slice.drop (s : Slice) (n : Nat) : Slice := ⟨s.arr, s.off + n, s.len - n⟩

/-- Reslicing the length, Go `s[:n]`: same backing array and offset. -/
def Slice.truncate (s : Slice) (n : Nat) : Slice := ⟨s.arr, s.off, n⟩

/-- The nil slice (Go `nil`): empty backing array, zero capacity. -/
def Slice.nil : Slice := ⟨[], 0, 0⟩

/-- Overwrite `src.length` positions of `arr` starting at `off` with the
bytes of `src`; models `js.CopyBytesToGo` writing through a slice view. -/
def overwrite (arr : List Nat) (off : Nat) (src : List Nat) : List Nat :=
  arr.take off ++ src ++ arr.drop (off + src.length)

/-- The outcome a JavaScript ArrayBuffer promise eventually settles
with: success carries the buffer bytes, failure carries the message
extracted from the rejection payload. -/
inductive PromiseOutcome where
  | success (buffer : List Nat)
  | failure (msg : String)
deriving Repr, DecidableEq

/-- State of `arrayReader` (src/arrayreader_js.go): `jsPromise` is the
stored promise handle (`none` models the zero `js.Value`), `remaining`
the owned not-yet-delivered bytes, `read` the resolution flag, and
`err` the stored error. -/
structure ArrayReader where
  jsPromise : Option PromiseOutcome
  remaining : Slice
  read : Bool
  err : Option String
deriving Repr, DecidableEq

/-- fromArray (src/arrayreader_js.go lines 101 to 113): copies a
JavaScript ArrayBuffer into go-space, reusing the existing backing
storage of `remaining` when its capacity suffices, else allocating a
fresh array. -/
def ArrayReader.fromArray (ar : ArrayReader) (arrayBuffer : List Nat) : Slice :=
  let count := arrayBuffer.length
  if count ≤ ar.remaining.cap then
    let goBuf := ar.remaining.truncate count
    ⟨overwrite goBuf.arr goBuf.off arrayBuffer, goBuf.off, goBuf.len⟩
  else
    ⟨arrayBuffer, 0, count⟩

/-- newReaderArrayBuffer (lines 36 to 40): configures a pooled instance
`ar` from an already-resolved buffer; copies immediately, marks it read,
and reports the byte count. -/
def newReaderArrayBuffer (ar : ArrayReader) (arrayBuffer : List Nat) : ArrayReader × Nat :=
  let rem := ar.fromArray arrayBuffer
  ({ ar with remaining := rem, read := true }, rem.len)

/-- newReaderArrayPromise (lines 28 to 32): configures a pooled instance
from a promise; only stores the handle, modelled by the outcome the
promise will settle with. -/
def newReaderArrayPromise (ar : ArrayReader) (arrayPromise : PromiseOutcome) : ArrayReader :=
  { ar with jsPromise := some arrayPromise }

/-- Modelled from the spec: the retention threshold constant
`socketStreamThresholdBytes` used by `Reset` is declared in a repository
file that is not under src/; the spec calls it a single process-wide
constant and fixes no value, so the model takes it as the parameter
`bufMax`. -/
def ArrayReader.Reset (bufMax : Nat) (ar : ArrayReader) : ArrayReader :=
  let ar1 : ArrayReader := { ar with jsPromise := none, read := false, err := none }
  if ar1.remaining.cap < bufMax then
    { ar1 with remaining := ar1.remaining.truncate 0 }
  else
    { ar1 with remaining := Slice.nil }

/-- Close (lines 43 to 47): resets the instance and puts it back into
the pool; the model returns the instance exactly as it is handed to
`arrayReaderPool.Put`. -/
def ArrayReader.Close (bufMax : Nat) (ar : ArrayReader) : ArrayReader :=
  ar.Reset bufMax

/-- A fresh instance as produced by the pool `New` function:
`new(arrayReader)`, all fields zero. -/
def arrayReaderNew : ArrayReader := ⟨none, Slice.nil, false, none⟩

/-- Result status of one Read call: `ok` is a nil error, `eof` is
io.EOF, `failure` carries any other error message. -/
inductive ReadStatus where
  | ok
  | eof
  | failure (msg : String)
deriving Repr, DecidableEq

/-- Observable outcome of one Read call: byte count `n`, status, the
bytes written into the destination, and the reader state afterwards. -/
structure ReadOutput where
  n : Nat
  status : ReadStatus
  written : List Nat
  state : ArrayReader
deriving Repr, DecidableEq

/-- Tail of Read after resolution (lines 91 to 96): empty `remaining`
yields io.EOF; otherwise `copy` moves `min bufLen remaining.len` bytes
and `remaining` is resliced past them. -/
def readResolved (ar : ArrayReader) (bufLen : Nat) : ReadOutput :=
  if ar.remaining.len < 1 then
    ⟨0, ReadStatus.eof, [], ar⟩
  else
    let n := min bufLen ar.remaining.len
    ⟨n, ReadStatus.ok, ar.remaining.bytes.take n,
      { ar with remaining := ar.remaining.drop n }⟩

/-- Read (lines 61 to 97).  A stored error returns immediately.  An
unresolved instance first sets the `read` flag, then blocks on the
promise: on success `remaining` is filled via `fromArray`, on failure
the rejection message is returned as the error (note the source does
not assign it to `ar.err`).  `none` models a read on an instance whose
promise handle is the zero `js.Value` (undefined behaviour in Go). -/
def ArrayReader.Read (ar : ArrayReader) (bufLen : Nat) : Option ReadOutput :=
  match ar.err with
  | some e => some ⟨0, ReadStatus.failure e, [], ar⟩
  | none =>
    if ar.read then
      some (readResolved ar bufLen)
    else
      let ar1 : ArrayReader := { ar with read := true }
      match ar.jsPromise with
      | none => none
      | some (PromiseOutcome.success buffer) =>
          some (readResolved { ar1 with remaining := ar1.fromArray buffer } bufLen)
      | some (PromiseOutcome.failure msg) =>
          some ⟨0, ReadStatus.failure msg, [], ar1⟩

/-- Runs a sequence of Read calls with the given destination lengths,
collecting the observable triples (byte count, status, written bytes)
and the final state; stops if a read is undefined. -/
def runReads : ArrayReader → List Nat → List (Nat × ReadStatus × List Nat) × ArrayReader
  | ar, [] => ([], ar)
  | ar, d :: ds =>
    match ar.Read d with
    | none => ([], ar)
    | some out =>
      let rest := runReads out.state ds
      ((out.n, out.status, out.written) :: rest.1, rest.2)

/-- Concatenation, in order, of the bytes delivered by the ok results of
a read trace. -/
def okBytes : List (Nat × ReadStatus × List Nat) → List Nat
  | [] => []
  | (_, ReadStatus.ok, w) :: rest => w ++ okBytes rest
  | _ :: rest => okBytes rest

/-- Total byte count reported across the ok results of a read trace. -/
def okTotal : List (Nat × ReadStatus × List Nat) → Nat
  | [] => 0
  | (n, ReadStatus.ok, _) :: rest => n + okTotal rest
  | _ :: rest => okTotal rest

/-- Observable part of a Read result: everything except the stored
promise handle of the post-state. -/
def obs (o : Option ReadOutput) :
    Option (Nat × ReadStatus × List Nat × Slice × Bool × Option String) :=
  o.map fun out => (out.n, out.status, out.written,
    out.state.remaining, out.state.read, out.state.err)

example :
    runReads (newReaderArrayBuffer arrayReaderNew [0, 1, 2, 3, 4]).1 [2, 2, 2, 2]
      = ([(2, ReadStatus.ok, [0, 1]), (2, ReadStatus.ok, [2, 3]),
          (1, ReadStatus.ok, [4]), (0, ReadStatus.eof, [])],
         ⟨none, ⟨[0, 1, 2, 3, 4], 5, 0⟩, true, none⟩) := by decide

example :
    okBytes (runReads (newReaderArrayPromise arrayReaderNew
      (PromiseOutcome.success [7, 8, 9])) [1, 5]).1 = [7, 8, 9] := by decide

example :
    (newReaderArrayPromise arrayReaderNew (PromiseOutcome.failure "network error")).Read 4
      = some ⟨0, ReadStatus.failure "network error", [],
          ⟨some (PromiseOutcome.failure "network error"), Slice.nil, true, none⟩⟩ := by
  decide

lemma overwrite_length (arr : List Nat) (off : Nat) (src : List Nat)
    (h : off + src.length ≤ arr.length) :
    (overwrite arr off src).length = arr.length := by
  simp [overwrite]
  omega

lemma fromArray_len (ar : ArrayReader) (buf : List Nat) :
    (ar.fromArray buf).len = buf.length := by
  unfold ArrayReader.fromArray
  dsimp only
  split <;> rfl

lemma fromArray_wf (ar : ArrayReader) (buf : List Nat) (h : ar.remaining.wf) :
    (ar.fromArray buf).wf := by
  unfold Slice.wf at h
  unfold ArrayReader.fromArray
  dsimp only
  split
  · rename_i hle
    simp [Slice.cap] at hle
    have hlen : (overwrite ar.remaining.arr ar.remaining.off buf).length
        = ar.remaining.arr.length := overwrite_length _ _ _ (by omega)
    simp [Slice.wf, Slice.truncate, hlen]
    omega
  · simp [Slice.wf]

lemma fromArray_bytes (ar : ArrayReader) (buf : List Nat) (h : ar.remaining.wf) :
    (ar.fromArray buf).bytes = buf := by
  unfold Slice.wf at h
  unfold ArrayReader.fromArray
  dsimp only
  split
  · rename_i hle
    simp [Slice.cap] at hle
    have hoff : (ar.remaining.arr.take ar.remaining.off).length = ar.remaining.off := by
      simp [List.length_take]
      omega
    simp only [Slice.bytes, Slice.truncate, overwrite, List.append_assoc]
    rw [List.drop_left' hoff, List.take_left' rfl]
  · simp [Slice.bytes]

lemma Slice.bytes_drop (s : Slice) (n : Nat) : (s.drop n).bytes = s.bytes.drop n := by
  simp [Slice.bytes, Slice.drop, List.drop_take, List.drop_drop]

lemma Slice.wf_drop (s : Slice) (n : Nat) (h : s.wf) (hn : n ≤ s.len) :
    (s.drop n).wf := by
  unfold Slice.wf at *
  simp [Slice.drop]
  omega

lemma Slice.length_bytes (s : Slice) (h : s.wf) : s.bytes.length = s.len := by
  unfold Slice.wf at h
  simp [Slice.bytes, List.length_take, List.length_drop]
  omega

lemma Read_resolved_ok (s : ArrayReader) (d : Nat) (h1 : s.read = true)
    (h2 : s.err = none) (h3 : 1 ≤ s.remaining.len) :
    s.Read d = some ⟨min d s.remaining.len, ReadStatus.ok,
      s.remaining.bytes.take (min d s.remaining.len),
      { s with remaining := s.remaining.drop (min d s.remaining.len) }⟩ := by
  have hnot : ¬ s.remaining.len < 1 := by omega
  simp [ArrayReader.Read, readResolved, h1, h2, hnot]

lemma Read_resolved_eof (s : ArrayReader) (d : Nat) (h1 : s.read = true)
    (h2 : s.err = none) (h3 : s.remaining.len = 0) :
    s.Read d = some ⟨0, ReadStatus.eof, [], s⟩ := by
  simp [ArrayReader.Read, readResolved, h1, h2, h3]

lemma runReads_cons (s : ArrayReader) (d : Nat) (ds : List Nat) (out : ReadOutput)
    (h : s.Read d = some out) :
    runReads s (d :: ds)
      = ((out.n, out.status, out.written) :: (runReads out.state ds).1,
         (runReads out.state ds).2) := by
  simp [runReads, h]

lemma runReads_drain (ds : List Nat) :
    ∀ s : ArrayReader, s.read = true → s.err = none → s.remaining.wf →
      s.remaining.len ≤ ds.sum →
      okBytes (runReads s ds).1 = s.remaining.bytes ∧
      okTotal (runReads s ds).1 = s.remaining.len ∧
      (runReads s ds).2 = { s with remaining := s.remaining.drop s.remaining.len } := by
  induction ds with
  | nil =>
    intro s h1 h2 h3 h4
    have hl : s.remaining.len = 0 := by simpa using h4
    refine ⟨?_, ?_, ?_⟩
    · simp [runReads, okBytes, Slice.bytes, hl]
    · simp [runReads, okTotal, hl]
    · simp only [runReads]
      rw [hl]
      rfl
  | cons d ds ih =>
    intro s h1 h2 h3 h4
    by_cases hl : s.remaining.len = 0
    · have hread := Read_resolved_eof s d h1 h2 hl
      obtain ⟨ihb, iht, ihf⟩ := ih s h1 h2 h3 (by omega)
      refine ⟨?_, ?_, ?_⟩ <;>
        simp [runReads, hread, okBytes, okTotal, ihb, iht, ihf]
    · have hpos : 1 ≤ s.remaining.len := by omega
      have hread := Read_resolved_ok s d h1 h2 hpos
      have hmin : min d s.remaining.len ≤ s.remaining.len := Nat.min_le_right _ _
      have hsum : d + ds.sum ≥ s.remaining.len := by simpa using h4
      set s2 : ArrayReader :=
        { s with remaining := s.remaining.drop (min d s.remaining.len) } with hs2
      have h2read : s2.read = true := h1
      have h2err : s2.err = none := h2
      have h2wf : s2.remaining.wf := Slice.wf_drop _ _ h3 hmin
      have h2len : s2.remaining.len = s.remaining.len - min d s.remaining.len := rfl
      obtain ⟨ihb, iht, ihf⟩ := ih s2 h2read h2err h2wf (by rw [h2len]; omega)
      refine ⟨?_, ?_, ?_⟩
      · simp [runReads, hread, okBytes, ihb, hs2, Slice.bytes_drop,
          List.take_append_drop]
      · rw [runReads_cons s d ds _ hread]
        dsimp only
        simp only [okTotal]
        rw [iht, h2len]
        omega
      · simp only [runReads, hread]
        rw [ihf]
        have hslice : s2.remaining.drop s2.remaining.len
            = s.remaining.drop s.remaining.len := by
          simp [hs2, Slice.drop, Slice.mk.injEq]
          omega
        simp [hs2, hslice]

lemma fromArray_read_true (s : ArrayReader) (buf : List Nat) :
    ({ s with read := true } : ArrayReader).fromArray buf = s.fromArray buf := rfl

lemma runReads_promise_success (s : ArrayReader) (buffer : List Nat) (ds : List Nat)
    (hr : s.read = false) (he : s.err = none)
    (hp : s.jsPromise = some (PromiseOutcome.success buffer)) :
    (runReads s ds).1
      = (runReads { s with read := true, remaining := s.fromArray buffer } ds).1 := by
  obtain ⟨p, rem, r, e⟩ := s
  dsimp only at hr he hp
  subst hr he hp
  cases ds with
  | nil => rfl
  | cons d ds => rfl

lemma runReads_promise_failure (s : ArrayReader) (msg : String) (d : Nat) (ds : List Nat)
    (hr : s.read = false) (he : s.err = none)
    (hp : s.jsPromise = some (PromiseOutcome.failure msg)) :
    runReads s (d :: ds)
      = ((0, ReadStatus.failure msg, []) :: (runReads { s with read := true } ds).1,
         (runReads { s with read := true } ds).2) := by
  have h1 : s.Read d
      = some ⟨0, ReadStatus.failure msg, [], { s with read := true }⟩ := by
    simp [ArrayReader.Read, he, hr, hp]
  rw [runReads_cons s d ds _ h1]

lemma runReads_obs_congr (ds : List Nat) :
    ∀ s1 s2 : ArrayReader, s1.read = true → s2.read = true →
      s1.err = none → s2.err = none →
      s1.remaining.wf → s2.remaining.wf →
      s1.remaining.bytes = s2.remaining.bytes →
      (runReads s1 ds).1 = (runReads s2 ds).1 := by
  induction ds with
  | nil =>
    intro s1 s2 _ _ _ _ _ _ _
    rfl
  | cons d ds ih =>
    intro s1 s2 h1 h2 e1 e2 w1 w2 hb
    have hlen : s1.remaining.len = s2.remaining.len := by
      rw [← Slice.length_bytes _ w1, ← Slice.length_bytes _ w2, hb]
    by_cases hl : s1.remaining.len = 0
    · rw [runReads_cons s1 d ds _ (Read_resolved_eof s1 d h1 e1 hl),
          runReads_cons s2 d ds _ (Read_resolved_eof s2 d h2 e2 (by omega))]
      dsimp only
      rw [ih s1 s2 h1 h2 e1 e2 w1 w2 hb]
    · have hp1 : 1 ≤ s1.remaining.len := by omega
      have hp2 : 1 ≤ s2.remaining.len := by omega
      rw [runReads_cons s1 d ds _ (Read_resolved_ok s1 d h1 e1 hp1),
          runReads_cons s2 d ds _ (Read_resolved_ok s2 d h2 e2 hp2)]
      dsimp only
      have htail := ih
        { s1 with remaining := s1.remaining.drop (min d s1.remaining.len) }
        { s2 with remaining := s2.remaining.drop (min d s2.remaining.len) }
        h1 h2 e1 e2
        (Slice.wf_drop _ _ w1 (Nat.min_le_right _ _))
        (Slice.wf_drop _ _ w2 (Nat.min_le_right _ _))
        (by
          show (s1.remaining.drop (min d s1.remaining.len)).bytes
            = (s2.remaining.drop (min d s2.remaining.len)).bytes
          rw [Slice.bytes_drop, Slice.bytes_drop, hb, hlen])
      rw [htail, hb, hlen]

lemma Reset_fields (bufMax : Nat) (ar : ArrayReader) :
    (ar.Reset bufMax).jsPromise = none ∧ (ar.Reset bufMax).read = false ∧
    (ar.Reset bufMax).err = none ∧ (ar.Reset bufMax).remaining.len = 0 := by
  unfold ArrayReader.Reset
  dsimp only
  split <;> simp [Slice.truncate, Slice.nil]

lemma Reset_wf (bufMax : Nat) (ar : ArrayReader) (h : ar.remaining.wf) :
    (ar.Reset bufMax).remaining.wf := by
  unfold Slice.wf at h
  unfold ArrayReader.Reset
  dsimp only
  split
  · simp [Slice.wf, Slice.truncate]
    omega
  · simp [Slice.wf, Slice.nil]

/-- C10: Read never returns a positive byte count together with a
non-nil status: the byte count never exceeds the destination length,
and every end-of-data or failure result carries exactly zero bytes. -/
theorem read_result_shape (s : ArrayReader) (d : Nat) (out : ReadOutput)
    (h : s.Read d = some out) :
    out.n ≤ d ∧ (out.status ≠ ReadStatus.ok → out.n = 0) := by
  unfold ArrayReader.Read readResolved at h
  dsimp only at h
  split at h
  · simp only [Option.some.injEq] at h
    subst h
    exact ⟨Nat.zero_le d, fun _ => rfl⟩
  · split at h
    · split at h
      · simp only [Option.some.injEq] at h
        subst h
        exact ⟨Nat.zero_le d, fun _ => rfl⟩
      · simp only [Option.some.injEq] at h
        subst h
        exact ⟨Nat.min_le_left _ _, fun hc => absurd rfl hc⟩
    · split at h
      · exact absurd h (by simp)
      · split at h
        · simp only [Option.some.injEq] at h
          subst h
          exact ⟨Nat.zero_le d, fun _ => rfl⟩
        · simp only [Option.some.injEq] at h
          subst h
          exact ⟨Nat.min_le_left _ _, fun hc => absurd rfl hc⟩
      · simp only [Option.some.injEq] at h
        subst h
        exact ⟨Nat.zero_le d, fun _ => rfl⟩

theorem read_result_shape_witness :
    ((⟨none, ⟨[1, 2, 3], 0, 3⟩, true, none⟩ : ArrayReader).Read 2
        = some ⟨2, ReadStatus.ok, [1, 2], ⟨none, ⟨[1, 2, 3], 2, 1⟩, true, none⟩⟩) ∧
    ((⟨2, ReadStatus.ok, [1, 2], ⟨none, ⟨[1, 2, 3], 2, 1⟩, true, none⟩⟩ :
        ReadOutput).n ≤ 2 ∧
     ((⟨2, ReadStatus.ok, [1, 2], ⟨none, ⟨[1, 2, 3], 2, 1⟩, true, none⟩⟩ :
        ReadOutput).status ≠ ReadStatus.ok →
      (⟨2, ReadStatus.ok, [1, 2], ⟨none, ⟨[1, 2, 3], 2, 1⟩, true, none⟩⟩ :
        ReadOutput).n = 0)) :=
  ⟨by decide, read_result_shape ⟨none, ⟨[1, 2, 3], 0, 3⟩, true, none⟩ 2
    ⟨2, ReadStatus.ok, [1, 2], ⟨none, ⟨[1, 2, 3], 2, 1⟩, true, none⟩⟩ (by decide)⟩

/-- C8: on a resolved, non-failed instance with bytes remaining, a read
with a zero-length destination returns (0, ok) and leaves the state
unchanged; when `remaining` is already empty, end-of-data still takes
precedence. -/
theorem zero_length_destination_ok (s : ArrayReader)
    (hr : s.read = true) (he : s.err = none) :
    (1 ≤ s.remaining.len → s.Read 0 = some ⟨0, ReadStatus.ok, [], s⟩) ∧
    (s.remaining.len = 0 → s.Read 0 = some ⟨0, ReadStatus.eof, [], s⟩) := by
  constructor
  · intro hp
    rw [Read_resolved_ok s 0 hr he hp]
    simp [Slice.drop]
  · intro hz
    exact Read_resolved_eof s 0 hr he hz

theorem zero_length_destination_ok_witness :
    ((⟨none, ⟨[1, 2], 0, 2⟩, true, none⟩ : ArrayReader).Read 0
        = some ⟨0, ReadStatus.ok, [], ⟨none, ⟨[1, 2], 0, 2⟩, true, none⟩⟩) ∧
    ((⟨none, ⟨[1, 2], 2, 0⟩, true, none⟩ : ArrayReader).Read 0
        = some ⟨0, ReadStatus.eof, [], ⟨none, ⟨[1, 2], 2, 0⟩, true, none⟩⟩) :=
  ⟨(zero_length_destination_ok ⟨none, ⟨[1, 2], 0, 2⟩, true, none⟩ rfl rfl).1 (by decide),
   (zero_length_destination_ok ⟨none, ⟨[1, 2], 2, 0⟩, true, none⟩ rfl rfl).2 rfl⟩

/-- C9: configuring from an already-resolved buffer of length zero
reports byte count 0, and the very first read returns (0, end-of-data)
with nothing copied into the destination. -/
theorem zero_length_buffer_eof (ar0 : ArrayReader) (he : ar0.err = none) (d : Nat) :
    (newReaderArrayBuffer ar0 []).2 = 0 ∧
    (newReaderArrayBuffer ar0 []).1.Read d
      = some ⟨0, ReadStatus.eof, [], (newReaderArrayBuffer ar0 []).1⟩ := by
  constructor
  · exact fromArray_len ar0 []
  · exact Read_resolved_eof _ d rfl he (fromArray_len ar0 [])

theorem zero_length_buffer_eof_witness :
    (newReaderArrayBuffer arrayReaderNew []).2 = 0 ∧
    (newReaderArrayBuffer arrayReaderNew []).1.Read 3
      = some ⟨0, ReadStatus.eof, [], (newReaderArrayBuffer arrayReaderNew []).1⟩ :=
  zero_length_buffer_eof arrayReaderNew rfl 3

/-- C5: Close resets the instance before handing it back to the pool:
the promise handle, the resolution flag and the error are cleared, and
`remaining` is truncated to length zero on the same backing storage
when its capacity is below the retention threshold, or replaced by the
nil slice (backing storage discarded) when it is not below it. -/
theorem close_resets_for_pool (bufMax : Nat) (ar : ArrayReader) :
    (ar.Close bufMax).jsPromise = none ∧
    (ar.Close bufMax).read = false ∧
    (ar.Close bufMax).err = none ∧
    (ar.remaining.cap < bufMax →
      (ar.Close bufMax).remaining = ar.remaining.truncate 0) ∧
    (¬ ar.remaining.cap < bufMax → (ar.Close bufMax).remaining = Slice.nil) := by
  unfold ArrayReader.Close ArrayReader.Reset
  dsimp only
  split
  · rename_i hc
    exact ⟨rfl, rfl, rfl, fun _ => rfl, fun hn => absurd hc hn⟩
  · rename_i hc
    exact ⟨rfl, rfl, rfl, fun hy => absurd hy hc, fun _ => rfl⟩

theorem close_resets_for_pool_witness :
    ((ArrayReader.Close 4 ⟨none, ⟨[9, 9, 9], 0, 3⟩, true, some "boom"⟩).err = none) ∧
    ((ArrayReader.Close 4 ⟨none, ⟨[9, 9, 9], 0, 3⟩, true, some "boom"⟩).remaining
        = Slice.truncate ⟨[9, 9, 9], 0, 3⟩ 0) ∧
    ((ArrayReader.Close 2 ⟨none, ⟨[9, 9, 9], 0, 3⟩, true, some "boom"⟩).remaining
        = Slice.nil) :=
  ⟨(close_resets_for_pool 4 ⟨none, ⟨[9, 9, 9], 0, 3⟩, true, some "boom"⟩).2.2.1,
   (close_resets_for_pool 4 ⟨none, ⟨[9, 9, 9], 0, 3⟩, true, some "boom"⟩).2.2.2.1
     (by decide),
   (close_resets_for_pool 2 ⟨none, ⟨[9, 9, 9], 0, 3⟩, true, some "boom"⟩).2.2.2.2
     (by decide)⟩

/-- C2 (evaluation of the code at the failing input): a reader
configured from a future that rejects with message "network error"
returns the failure on the first read, but the post-state still has
`err = none` because the source never assigns `ar.err`, so the second
read on the same non-released instance returns end-of-data instead of
the stored failure. -/
theorem rejection_not_sticky :
    (newReaderArrayPromise arrayReaderNew (PromiseOutcome.failure "network error")).Read 4
      = some ⟨0, ReadStatus.failure "network error", [],
          ⟨some (PromiseOutcome.failure "network error"), Slice.nil, true, none⟩⟩ ∧
    (⟨some (PromiseOutcome.failure "network error"), Slice.nil, true, none⟩ :
        ArrayReader).err = none ∧
    (⟨some (PromiseOutcome.failure "network error"), Slice.nil, true, none⟩ :
        ArrayReader).Read 4
      = some ⟨0, ReadStatus.eof, [],
          ⟨some (PromiseOutcome.failure "network error"), Slice.nil, true, none⟩⟩ := by
  decide

/-- C7: a read that returns a future-rejection failure does not mutate
`remaining`: the post-state carries exactly the same slice (same
backing storage, offset and length), and zero bytes are written. -/
theorem failure_frame (s : ArrayReader) (d : Nat) (msg : String)
    (out : ReadOutput) (h : s.Read d = some out)
    (hst : out.status = ReadStatus.failure msg) :
    out.state.remaining = s.remaining ∧ out.n = 0 ∧ out.written = [] := by
  unfold ArrayReader.Read readResolved at h
  dsimp only at h
  split at h
  · simp only [Option.some.injEq] at h
    subst h
    exact ⟨rfl, rfl, rfl⟩
  · split at h
    · split at h
      · simp only [Option.some.injEq] at h
        subst h
        exact ReadStatus.noConfusion hst
      · simp only [Option.some.injEq] at h
        subst h
        exact ReadStatus.noConfusion hst
    · split at h
      · exact Option.noConfusion h
      · split at h
        · simp only [Option.some.injEq] at h
          subst h
          exact ReadStatus.noConfusion hst
        · simp only [Option.some.injEq] at h
          subst h
          exact ReadStatus.noConfusion hst
      · simp only [Option.some.injEq] at h
        subst h
        exact ⟨rfl, rfl, rfl⟩

theorem failure_frame_witness :
    ((⟨some (PromiseOutcome.failure "boom"), ⟨[4], 0, 1⟩, false, none⟩ :
        ArrayReader).Read 2
      = some ⟨0, ReadStatus.failure "boom", [],
          ⟨some (PromiseOutcome.failure "boom"), ⟨[4], 0, 1⟩, true, none⟩⟩) ∧
    ((⟨0, ReadStatus.failure "boom", [],
        ⟨some (PromiseOutcome.failure "boom"), ⟨[4], 0, 1⟩, true, none⟩⟩ :
        ReadOutput).state.remaining
      = (⟨some (PromiseOutcome.failure "boom"), ⟨[4], 0, 1⟩, false, none⟩ :
        ArrayReader).remaining ∧
     (⟨0, ReadStatus.failure "boom", [],
        ⟨some (PromiseOutcome.failure "boom"), ⟨[4], 0, 1⟩, true, none⟩⟩ :
        ReadOutput).n = 0 ∧
     (⟨0, ReadStatus.failure "boom", [],
        ⟨some (PromiseOutcome.failure "boom"), ⟨[4], 0, 1⟩, true, none⟩⟩ :
        ReadOutput).written = []) :=
  ⟨by decide,
   failure_frame ⟨some (PromiseOutcome.failure "boom"), ⟨[4], 0, 1⟩, false, none⟩
     2 "boom"
     ⟨0, ReadStatus.failure "boom", [],
       ⟨some (PromiseOutcome.failure "boom"), ⟨[4], 0, 1⟩, true, none⟩⟩
     (by decide) rfl⟩

/-- C6: a read that returned end-of-data wrote zero bytes, and every
further read on the unchanged instance also returns (0, end-of-data)
with the state unchanged, never consulting the future again. -/
theorem eof_terminal (s : ArrayReader) (d d2 : Nat) (out : ReadOutput)
    (h : s.Read d = some out) (hst : out.status = ReadStatus.eof) :
    out.n = 0 ∧ out.written = [] ∧
    out.state.Read d2 = some ⟨0, ReadStatus.eof, [], out.state⟩ := by
  unfold ArrayReader.Read readResolved at h
  dsimp only at h
  split at h
  · simp only [Option.some.injEq] at h
    subst h
    exact ReadStatus.noConfusion hst
  · rename_i heq
    split at h
    · rename_i hr
      split at h
      · rename_i hl
        simp only [Option.some.injEq] at h
        subst h
        exact ⟨rfl, rfl, Read_resolved_eof s d2 hr heq (Nat.lt_one_iff.mp hl)⟩
      · simp only [Option.some.injEq] at h
        subst h
        exact ReadStatus.noConfusion hst
    · split at h
      · exact Option.noConfusion h
      · rename_i hl
        split at h
        · rename_i hl2
          simp only [Option.some.injEq] at h
          subst h
          exact ⟨rfl, rfl, Read_resolved_eof _ d2 rfl heq (Nat.lt_one_iff.mp hl2)⟩
        · simp only [Option.some.injEq] at h
          subst h
          exact ReadStatus.noConfusion hst
      · simp only [Option.some.injEq] at h
        subst h
        exact ReadStatus.noConfusion hst

theorem eof_terminal_witness :
    ((⟨none, Slice.nil, true, none⟩ : ArrayReader).Read 1
        = some ⟨0, ReadStatus.eof, [], ⟨none, Slice.nil, true, none⟩⟩) ∧
    ((⟨0, ReadStatus.eof, [], ⟨none, Slice.nil, true, none⟩⟩ : ReadOutput).n = 0 ∧
     (⟨0, ReadStatus.eof, [], ⟨none, Slice.nil, true, none⟩⟩ :
        ReadOutput).written = [] ∧
     (⟨0, ReadStatus.eof, [], ⟨none, Slice.nil, true, none⟩⟩ : ReadOutput).state.Read 2
       = some ⟨0, ReadStatus.eof, [],
           (⟨0, ReadStatus.eof, [], ⟨none, Slice.nil, true, none⟩⟩ :
             ReadOutput).state⟩) :=
  ⟨by decide,
   eof_terminal ⟨none, Slice.nil, true, none⟩ 1 2
     ⟨0, ReadStatus.eof, [], ⟨none, Slice.nil, true, none⟩⟩ (by decide) rfl⟩

lemma obs_readResolved_jsPromise (pq p2 : Option PromiseOutcome) (rem : Slice)
    (r : Bool) (e : Option String) (d : Nat) :
    obs (some (readResolved ⟨pq, rem, r, e⟩ d))
      = obs (some (readResolved ⟨p2, rem, r, e⟩ d)) := by
  by_cases hl : rem.len < 1
  · simp [readResolved, obs, hl]
  · simp [readResolved, obs, hl]

/-- C3: the resolution block runs at most once per acquisition: any
read on an unresolved, non-failed instance sets the `read` flag (even
when the future rejects), a read never clears the flag, and once the
flag is set the observable result of a read no longer depends on the
stored promise handle at all. -/
theorem resolution_block_at_most_once (s : ArrayReader) (d d2 : Nat)
    (out : ReadOutput) (h : s.Read d = some out) (p : Option PromiseOutcome) :
    (s.read = true → out.state.read = true) ∧
    (s.read = false → s.err = none → out.state.read = true) ∧
    (s.read = true →
      obs (ArrayReader.Read { s with jsPromise := p } d2) = obs (s.Read d2)) := by
  refine ⟨?_, ?_, ?_⟩
  · intro hr
    unfold ArrayReader.Read readResolved at h
    dsimp only at h
    split at h
    · simp only [Option.some.injEq] at h
      subst h
      exact hr
    · split at h
      · split at h
        · simp only [Option.some.injEq] at h
          subst h
          exact hr
        · simp only [Option.some.injEq] at h
          subst h
          exact hr
      · rename_i hnr
        exact absurd hr hnr
  · intro hr he
    unfold ArrayReader.Read readResolved at h
    dsimp only at h
    split at h
    · rename_i heq
      rw [he] at heq
      exact Option.noConfusion heq
    · split at h
      · rename_i hr2
        rw [hr] at hr2
        exact Bool.noConfusion hr2
      · split at h
        · exact Option.noConfusion h
        · split at h
          · simp only [Option.some.injEq] at h
            subst h
            rfl
          · simp only [Option.some.injEq] at h
            subst h
            rfl
        · simp only [Option.some.injEq] at h
          subst h
          rfl
  · intro hr
    obtain ⟨p0, rem, r, e⟩ := s
    dsimp only at hr
    subst hr
    cases e with
    | some msg => rfl
    | none => exact obs_readResolved_jsPromise p p0 rem true none d2

theorem resolution_block_at_most_once_witness :
    ((⟨some (PromiseOutcome.failure "e"), Slice.nil, false, none⟩ :
        ArrayReader).Read 1
      = some ⟨0, ReadStatus.failure "e", [],
          ⟨some (PromiseOutcome.failure "e"), Slice.nil, true, none⟩⟩) ∧
    (((⟨some (PromiseOutcome.failure "e"), Slice.nil, false, none⟩ :
        ArrayReader).read = true →
      (⟨0, ReadStatus.failure "e", [],
          ⟨some (PromiseOutcome.failure "e"), Slice.nil, true, none⟩⟩ :
        ReadOutput).state.read = true) ∧
     ((⟨some (PromiseOutcome.failure "e"), Slice.nil, false, none⟩ :
        ArrayReader).read = false →
      (⟨some (PromiseOutcome.failure "e"), Slice.nil, false, none⟩ :
        ArrayReader).err = none →
      (⟨0, ReadStatus.failure "e", [],
          ⟨some (PromiseOutcome.failure "e"), Slice.nil, true, none⟩⟩ :
        ReadOutput).state.read = true) ∧
     ((⟨some (PromiseOutcome.failure "e"), Slice.nil, false, none⟩ :
        ArrayReader).read = true →
      obs (ArrayReader.Read { (⟨some (PromiseOutcome.failure "e"), Slice.nil,
          false, none⟩ : ArrayReader) with jsPromise := none } 3)
        = obs ((⟨some (PromiseOutcome.failure "e"), Slice.nil, false, none⟩ :
            ArrayReader).Read 3))) :=
  ⟨by decide,
   resolution_block_at_most_once
     ⟨some (PromiseOutcome.failure "e"), Slice.nil, false, none⟩ 1 3
     ⟨0, ReadStatus.failure "e", [],
       ⟨some (PromiseOutcome.failure "e"), Slice.nil, true, none⟩⟩
     (by decide) none⟩

lemma Slice.bytes_len_zero (s : Slice) (h : s.len = 0) : s.bytes = [] := by
  simp [Slice.bytes, h]

/-- C4: after release and reconfiguration, the observable read results
depend only on the newly configured buffer or future outcome: two
instances with arbitrary prior contents produce identical traces of
(byte count, status, written bytes) once reset and configured the same
way, so stale bytes from a previous acquisition are never delivered
even though the backing storage may be reused. -/
theorem reconfigure_no_stale_bytes (bufMax : Nat) (a b : ArrayReader)
    (ha : a.remaining.wf) (hb : b.remaining.wf) (ds : List Nat)
    (buffer : List Nat) (outcome : PromiseOutcome) :
    (runReads (newReaderArrayBuffer (a.Reset bufMax) buffer).1 ds).1
      = (runReads (newReaderArrayBuffer (b.Reset bufMax) buffer).1 ds).1 ∧
    (runReads (newReaderArrayPromise (a.Reset bufMax) outcome) ds).1
      = (runReads (newReaderArrayPromise (b.Reset bufMax) outcome) ds).1 := by
  obtain ⟨_, rar, rae, ral⟩ := Reset_fields bufMax a
  obtain ⟨_, rbr, rbe, rbl⟩ := Reset_fields bufMax b
  have wa := Reset_wf bufMax a ha
  have wb := Reset_wf bufMax b hb
  constructor
  · exact runReads_obs_congr ds _ _ rfl rfl rae rbe
      (fromArray_wf _ _ wa) (fromArray_wf _ _ wb)
      ((fromArray_bytes _ buffer wa).trans (fromArray_bytes _ buffer wb).symm)
  · cases outcome with
    | success buf2 =>
      rw [runReads_promise_success (newReaderArrayPromise (a.Reset bufMax) _)
            buf2 ds rar rae rfl,
          runReads_promise_success (newReaderArrayPromise (b.Reset bufMax) _)
            buf2 ds rbr rbe rfl]
      exact runReads_obs_congr ds _ _ rfl rfl rae rbe
        (fromArray_wf _ _ wa) (fromArray_wf _ _ wb)
        ((fromArray_bytes _ buf2 wa).trans (fromArray_bytes _ buf2 wb).symm)
    | failure msg =>
      cases ds with
      | nil => rfl
      | cons d ds =>
        rw [runReads_promise_failure
              (newReaderArrayPromise (a.Reset bufMax) (PromiseOutcome.failure msg))
              msg d ds rar rae rfl,
            runReads_promise_failure
              (newReaderArrayPromise (b.Reset bufMax) (PromiseOutcome.failure msg))
              msg d ds rbr rbe rfl]
        dsimp only
        rw [runReads_obs_congr ds
              { newReaderArrayPromise (a.Reset bufMax) (PromiseOutcome.failure msg)
                  with read := true }
              { newReaderArrayPromise (b.Reset bufMax) (PromiseOutcome.failure msg)
                  with read := true }
              rfl rfl rae rbe wa wb
              ((Slice.bytes_len_zero _ ral).trans (Slice.bytes_len_zero _ rbl).symm)]

theorem reconfigure_no_stale_bytes_witness :
    ((⟨none, ⟨[1, 2, 3], 0, 3⟩, true, some "x"⟩ : ArrayReader).remaining.wf ∧
     arrayReaderNew.remaining.wf) ∧
    ((runReads (newReaderArrayBuffer (ArrayReader.Reset 10
        ⟨none, ⟨[1, 2, 3], 0, 3⟩, true, some "x"⟩) [8]).1 [2]).1
      = (runReads (newReaderArrayBuffer (ArrayReader.Reset 10 arrayReaderNew)
          [8]).1 [2]).1 ∧
     (runReads (newReaderArrayPromise (ArrayReader.Reset 10
          ⟨none, ⟨[1, 2, 3], 0, 3⟩, true, some "x"⟩)
        (PromiseOutcome.success [9])) [2]).1
      = (runReads (newReaderArrayPromise (ArrayReader.Reset 10 arrayReaderNew)
          (PromiseOutcome.success [9])) [2]).1) :=
  ⟨by decide,
   reconfigure_no_stale_bytes 10 ⟨none, ⟨[1, 2, 3], 0, 3⟩, true, some "x"⟩
     arrayReaderNew (by decide) (by decide) [2] [8] (PromiseOutcome.success [9])⟩

/-- C1: a pooled reader configured from a resolved buffer (or from a
future that resolves with that buffer) delivers, across any sequence
of reads whose destination capacities sum to at least the buffer
length, exactly the buffer bytes, in order, through the ok results;
each individual read on a resolved non-empty instance copies
min(destination length, remaining length) bytes and advances
`remaining` past them; and the read after the last byte returns
(0, end-of-data). -/
theorem read_sequence_delivers_buffer (ar0 : ArrayReader)
    (h1 : ar0.err = none) (h2 : ar0.remaining.wf) (h3 : ar0.read = false)
    (buffer : List Nat) (ds : List Nat) (hsum : buffer.length ≤ ds.sum)
    (d2 : Nat) (s : ArrayReader) (d : Nat)
    (hs1 : s.read = true) (hs2 : s.err = none) (hs3 : 1 ≤ s.remaining.len) :
    okBytes (runReads (newReaderArrayBuffer ar0 buffer).1 ds).1 = buffer ∧
    okTotal (runReads (newReaderArrayBuffer ar0 buffer).1 ds).1 = buffer.length ∧
    (runReads (newReaderArrayBuffer ar0 buffer).1 ds).2.Read d2
      = some ⟨0, ReadStatus.eof, [],
          (runReads (newReaderArrayBuffer ar0 buffer).1 ds).2⟩ ∧
    okBytes (runReads (newReaderArrayPromise ar0
        (PromiseOutcome.success buffer)) ds).1 = buffer ∧
    s.Read d = some ⟨min d s.remaining.len, ReadStatus.ok,
      s.remaining.bytes.take (min d s.remaining.len),
      { s with remaining := s.remaining.drop (min d s.remaining.len) }⟩ := by
  have hlen : ((newReaderArrayBuffer ar0 buffer).1).remaining.len = buffer.length :=
    fromArray_len ar0 buffer
  obtain ⟨hb, ht, hf⟩ := runReads_drain ds (newReaderArrayBuffer ar0 buffer).1
    rfl h1 (fromArray_wf ar0 buffer h2) (by rw [hlen]; exact hsum)
  refine ⟨hb.trans (fromArray_bytes ar0 buffer h2), ht.trans hlen, ?_, ?_, ?_⟩
  · rw [hf]
    exact Read_resolved_eof _ d2 rfl h1 (Nat.sub_self _)
  · rw [runReads_promise_success
        (newReaderArrayPromise ar0 (PromiseOutcome.success buffer)) buffer ds
        h3 h1 rfl]
    have hlen2 : ({ newReaderArrayPromise ar0 (PromiseOutcome.success buffer) with
          read := true,
          remaining := (newReaderArrayPromise ar0
            (PromiseOutcome.success buffer)).fromArray buffer } :
        ArrayReader).remaining.len = buffer.length :=
      fromArray_len _ buffer
    obtain ⟨hb2, _, _⟩ := runReads_drain ds
      { newReaderArrayPromise ar0 (PromiseOutcome.success buffer) with
          read := true,
          remaining := (newReaderArrayPromise ar0
            (PromiseOutcome.success buffer)).fromArray buffer }
      rfl h1 (fromArray_wf _ buffer h2) (by rw [hlen2]; exact hsum)
    exact hb2.trans (fromArray_bytes _ buffer h2)
  · exact Read_resolved_ok s d hs1 hs2 hs3

theorem read_sequence_delivers_buffer_witness :
    (arrayReaderNew.err = none ∧ arrayReaderNew.remaining.wf ∧
     arrayReaderNew.read = false ∧ [7].length ≤ [1].sum ∧
     (⟨none, ⟨[9], 0, 1⟩, true, none⟩ : ArrayReader).read = true ∧
     (⟨none, ⟨[9], 0, 1⟩, true, none⟩ : ArrayReader).err = none ∧
     1 ≤ (⟨none, ⟨[9], 0, 1⟩, true, none⟩ : ArrayReader).remaining.len) ∧
    (okBytes (runReads (newReaderArrayBuffer arrayReaderNew [7]).1 [1]).1 = [7] ∧
     okTotal (runReads (newReaderArrayBuffer arrayReaderNew [7]).1 [1]).1
       = [7].length ∧
     (runReads (newReaderArrayBuffer arrayReaderNew [7]).1 [1]).2.Read 0
       = some ⟨0, ReadStatus.eof, [],
           (runReads (newReaderArrayBuffer arrayReaderNew [7]).1 [1]).2⟩ ∧
     okBytes (runReads (newReaderArrayPromise arrayReaderNew
         (PromiseOutcome.success [7])) [1]).1 = [7] ∧
     (⟨none, ⟨[9], 0, 1⟩, true, none⟩ : ArrayReader).Read 1
       = some ⟨min 1 (⟨[9], 0, 1⟩ : Slice).len, ReadStatus.ok,
           (⟨[9], 0, 1⟩ : Slice).bytes.take (min 1 (⟨[9], 0, 1⟩ : Slice).len),
           ⟨none, (⟨[9], 0, 1⟩ : Slice).drop (min 1 (⟨[9], 0, 1⟩ : Slice).len),
             true, none⟩⟩) :=
  ⟨by decide,
   read_sequence_delivers_buffer arrayReaderNew rfl (by decide) rfl [7] [1]
     (by decide) 0 ⟨none, ⟨[9], 0, 1⟩, true, none⟩ 1 rfl rfl (by decide)⟩
